import Mathlib

/-!
Verification of the PPO training core in `train_agent.py` (class `PPOAgent`).

The embedding models the numerically relevant parts of the agent:

* `compute_advantages` (GAE-λ reverse scan, advantage normalization, returns);
* `update_entropy_coef` (linear annealing with `np.clip`);
* the actor update's numeric-validity checks (`tf.debugging.check_numerics`
  on the recomputed log-probabilities and on the importance ratios) and the
  clipped-surrogate loss;
* the critic loss `tf.reduce_mean(tf.square(returns - values))`, where
  `returns` is a rank-1 tensor of shape `(T,)` and `values` the critic's
  output of shape `(T, 1)` (the shape is documented in the source), so the
  subtraction broadcasts to a `(T, T)` matrix;
* the rollout loop of `train` (per-step collection, the `np.isnan` early
  abort, the bootstrap value, and the per-episode pipeline).

Machine floats are modelled as exact reals extended with NaN and signed
infinities (`Flt`), which is enough to express the NaN/Inf control flow the
source performs; rounding is not modelled.  External collaborators (the
environment, the actor's sampling and re-evaluation, the critic's forward
pass) are black boxes in the source and are modelled as per-step trace oracles
(`Script`).
-/

noncomputable section

namespace PPO

/-- Model of an IEEE float as used by the control flow of the source:
an exact real, a signed infinity, or NaN. -/
inductive Flt where
  | fin : ℝ → Flt
  | inf : Bool → Flt
  | nan : Flt

/-- `np.isnan` on one entry. -/
def Flt.isNaN : Flt → Bool
  | .nan => true
  | _ => false

/-- Finiteness test, as used by `tf.debugging.check_numerics` (which rejects
both NaN and Inf). -/
def Flt.isFinite : Flt → Bool
  | .fin _ => true
  | _ => false

/-- Extract the real value of a finite float (junk value 0 otherwise; only
used after a finiteness check has succeeded). -/
def Flt.toReal : Flt → ℝ
  | .fin x => x
  | _ => 0

/-- Float subtraction with IEEE NaN/Inf propagation. -/
def fsub : Flt → Flt → Flt
  | .fin a, .fin b => .fin (a - b)
  | .fin _, .inf s => .inf (!s)
  | .inf s, .fin _ => .inf s
  | .inf s, .inf t => if s = t then .nan else .inf s
  | .nan, _ => .nan
  | _, .nan => .nan

/-- Float exponential (idealized: a finite argument yields the exact real
exponential; `exp (-∞) = 0`, `exp ∞ = ∞`, `exp NaN = NaN`). -/
def fexp : Flt → Flt
  | .fin x => .fin (Real.exp x)
  | .inf true => .inf true
  | .inf false => .fin 0
  | .nan => .nan

/-! ### Agent constants (from `PPOAgent.__init__`) -/

def gammaPPO : ℝ := 0.99

def epsilonPPO : ℝ := 0.2

def gaelamPPO : ℝ := 0.95

def minEntropyPPO : ℝ := 0.0001

def maxEntropyPPO : ℝ := 0.01

/-! ### `update_entropy_coef`

`entropy_coef = max_entropy - (max_entropy - min_entropy) * (episode / max_episodes)`
then `np.clip(entropy_coef, min_entropy, max_entropy)`;
`np.clip(x, lo, hi) = min (max x lo) hi`. -/

def update_entropy_coef (minE maxE : ℝ) (episode maxEpisodes : ℕ) : ℝ :=
  min (max (maxE - (maxE - minE) * ((episode : ℝ) / (maxEpisodes : ℝ))) minE) maxE

/-- Modelled from the spec: the schedule formula exactly as the claim words it,
with the linear term divided by `maxEntropy` instead of `maxEpisodes`; kept
only for comparison with `update_entropy_coef` (the source). -/
def entropyCoefClaim (minE maxE : ℝ) (episode maxEpisodes : ℕ) : ℝ :=
  min (max (maxE - (maxE - minE) * ((episode : ℝ) / maxE)) minE) maxE

/-! ### `compute_advantages` (GAE-λ reverse scan)

The loop body at index `t` (with `T = len(rewards)`):
`next_value = values[-1]` and `next_done = dones[t]` when `t = T-1`,
otherwise `next_value = values[t+1]`, `next_done = dones[t+1]`;
`delta = rewards[t] + γ * next_value * (1 - next_done) - values[t]`;
`advantages[t] = last_gae = delta + γ * λ * (1 - next_done) * last_gae`;
`returns[t] = advantages[t] + values[t]`.
`advAux j` is the value of `last_gae` after processing `t = T - 1 - j`. -/

def nextValueSel (rewards values : List ℝ) (t : ℕ) : ℝ :=
  if t = rewards.length - 1 then values.getD (values.length - 1) 0
  else values.getD (t + 1) 0

def nextDoneSel (rewards dones : List ℝ) (t : ℕ) : ℝ :=
  if t = rewards.length - 1 then dones.getD t 0
  else dones.getD (t + 1) 0

def tdDelta (γ : ℝ) (rewards values dones : List ℝ) (t : ℕ) : ℝ :=
  rewards.getD t 0 + γ * nextValueSel rewards values t * (1 - nextDoneSel rewards dones t)
    - values.getD t 0

def gaeBody (γ lam : ℝ) (rewards values dones : List ℝ) (t : ℕ) (lastGae : ℝ) : ℝ :=
  tdDelta γ rewards values dones t + γ * lam * (1 - nextDoneSel rewards dones t) * lastGae

def advAux (γ lam : ℝ) (rewards values dones : List ℝ) : ℕ → ℝ
  | 0 => gaeBody γ lam rewards values dones (rewards.length - 1) 0
  | j + 1 =>
      gaeBody γ lam rewards values dones (rewards.length - 1 - (j + 1))
        (advAux γ lam rewards values dones j)

/-- The (pre-normalization) GAE advantage written at index `t` by the loop. -/
def rawAdv (γ lam : ℝ) (rewards values dones : List ℝ) (t : ℕ) : ℝ :=
  advAux γ lam rewards values dones (rewards.length - 1 - t)

def advantagesRaw (γ lam : ℝ) (rewards values dones : List ℝ) : List ℝ :=
  (List.range rewards.length).map (rawAdv γ lam rewards values dones)

/-- `returns[t] = advantages[t] + values[t]`, written with the raw advantage
(the normalization happens afterwards and does not touch `returns`). -/
def returnsSeq (γ lam : ℝ) (rewards values dones : List ℝ) : List ℝ :=
  (List.range rewards.length).map
    (fun t => rawAdv γ lam rewards values dones t + values.getD t 0)

def mean (xs : List ℝ) : ℝ := xs.sum / xs.length

/-- Population variance, as `np.std` (ddof = 0) squares it. -/
def varPop (xs : List ℝ) : ℝ := mean (xs.map (fun x => (x - mean xs) ^ 2))

def stdPop (xs : List ℝ) : ℝ := Real.sqrt (varPop xs)

/-- `(advantages - advantages.mean()) / (advantages.std() + 1e-8)`. -/
def normalizeAdv (xs : List ℝ) : List ℝ :=
  xs.map (fun x => (x - mean xs) / (stdPop xs + 1e-8))

/-- `compute_advantages`: returns the normalized advantages and the
un-normalized returns. -/
def compute_advantages (γ lam : ℝ) (rewards values dones : List ℝ) :
    List ℝ × List ℝ :=
  (normalizeAdv (advantagesRaw γ lam rewards values dones),
   returnsSeq γ lam rewards values dones)

/-! ### The actor update (`PPOAgent.update`, actor half) -/

/-- `tf.debugging.check_numerics`: fails if any entry is NaN or Inf,
otherwise passes the tensor through unchanged. -/
def checkNumerics (msg : String) (xs : List Flt) : Except String (List Flt) :=
  if xs.all Flt.isFinite then .ok xs else .error msg

/-- `ratios = tf.exp(log_probs - log_probs_old)`. -/
def ratiosOf (logProbs logProbsOld : List Flt) : List Flt :=
  List.zipWith (fun a b => fexp (fsub a b)) logProbs logProbsOld

/-- `tf.clip_by_value`. -/
def clipByValue (x lo hi : ℝ) : ℝ := min (max x lo) hi

/-- `-tf.reduce_mean(tf.minimum(ratios * advantages, clipped_ratios * advantages))`. -/
def surrogateLoss (ε : ℝ) (ratios advantages : List ℝ) : ℝ :=
  -(mean (List.zipWith
      (fun r a => min (r * a) (clipByValue r (1 - ε) (1 + ε) * a))
      ratios advantages))

/-- The actor half of `PPOAgent.update`: numeric-validity checks on the
recomputed log-probabilities and on the ratios, then the clipped-surrogate
loss minus the entropy bonus.  An error from a check propagates to the
caller (in the source, `tf.debugging.check_numerics` raises and `train`
does not catch). -/
def policyUpdate (ε entropyCoef : ℝ) (logProbs logProbsOld : List Flt)
    (advantages entropy : List ℝ) : Except String ℝ :=
  match checkNumerics "log_probs contain NaN" logProbs with
  | .error e => .error e
  | .ok lp =>
    match checkNumerics "ratios contain NaN" (ratiosOf lp logProbsOld) with
    | .error e => .error e
    | .ok r =>
        .ok (surrogateLoss ε (r.map Flt.toReal) advantages
              - entropyCoef * mean entropy)

/-! ### The critic update (`PPOAgent.update`, critic half)

`critic_loss = tf.reduce_mean(tf.square(returns - values))` where `returns`
has shape `(T,)` and `values = critic.call(states)` has shape `(T, 1)` (the
shape is the source's own comment, and `train` indexes the critic output
with `[0, 0]`).  The subtraction therefore broadcasts to a `(T, T)` matrix
with entry `(i, j)` equal to `returns[j] - values[i]`, and the mean runs
over all `T * T` entries. -/

def criticLossTF (returnsT values : List ℝ) : ℝ :=
  mean (values.map (fun v => mean (returnsT.map (fun r => (r - v) ^ 2))))

/-- Modelled from the spec: `valueLoss = mean((returns - values)^2)` read as
the elementwise mean over the `T` squared differences, for comparison with
the broadcast `criticLossTF` the source computes. -/
def criticLossSpec (returnsT values : List ℝ) : ℝ :=
  mean (List.zipWith (fun r v => (r - v) ^ 2) returnsT values)

/-! ### The rollout loop and the per-episode pipeline (`PPOAgent.train`)

One episode of `train`.  The black-box collaborators are replaced by a trace
oracle: `act i` is what `get_action` returns at the i-th loop iteration,
`env i` what `self.env.step` returns there, `critic` the critic's scalar
forward pass, and `reeval` / `entropy` the actor's recomputed
log-probabilities and entropies during `update`.  The `while not done` loop
is run on explicit fuel (the source loops until `done` or the NaN abort;
every terminating execution is a run with enough fuel). -/

/-- What `self.env.step(action)` returns (the unused `info` is dropped). -/
structure StepRes where
  nextState : List Flt
  reward : ℝ
  done : Bool

/-- What `get_action(state)` contributes to the trajectory. -/
structure ActRes where
  action : List ℝ
  logProb : Flt
  rawAction : List ℝ

/-- Trace oracle for one episode's collaborators. -/
structure Script where
  init : List Flt
  act : ℕ → ActRes
  env : ℕ → StepRes
  critic : List Flt → ℝ
  reeval : List Flt
  entropy : List ℝ

/-- The seven parallel per-step lists of `train`. -/
@[ext]
structure Traj where
  states : List (List Flt)
  actions : List (List ℝ)
  rewards : List ℝ
  dones : List Bool
  probs : List Flt
  valuesLearned : List ℝ
  rawActions : List (List ℝ)

def Traj.empty : Traj := ⟨[], [], [], [], [], [], []⟩

/-- The seven `append` statements of the loop body. -/
def Traj.push (tr : Traj) (state : List Flt) (a : ActRes) (sr : StepRes) (v : ℝ) : Traj :=
  { states := tr.states ++ [state]
    actions := tr.actions ++ [a.action]
    rewards := tr.rewards ++ [sr.reward]
    dones := tr.dones ++ [sr.done]
    probs := tr.probs ++ [a.logProb]
    valuesLearned := tr.valuesLearned ++ [v]
    rawActions := tr.rawActions ++ [a.rawAction] }

/-- Componentwise concatenation of trajectories. -/
def Traj.app (a b : Traj) : Traj :=
  { states := a.states ++ b.states
    actions := a.actions ++ b.actions
    rewards := a.rewards ++ b.rewards
    dones := a.dones ++ b.dones
    probs := a.probs ++ b.probs
    valuesLearned := a.valuesLearned ++ b.valuesLearned
    rawActions := a.rawActions ++ b.rawActions }

/-- `np.isnan(next_state).any()`. -/
def hasNaNState (s : List Flt) : Bool := s.any Flt.isNaN

/-- The `while not done` loop of `train`.  At iteration `i` with current
`state`: sample an action, step the environment; if the next state contains
a NaN, break before appending anything (the aborting step's data is
dropped); otherwise query the critic on the pre-step state, append the
transition, advance the state, and loop unless `done`.  The second
component of the result is the final value of the `next_state` variable,
fed to the critic for the bootstrap value. -/
def rolloutAux (sc : Script) : ℕ → ℕ → List Flt → Traj → Traj × List Flt
  | 0, _, state, acc => (acc, state)
  | fuel + 1, i, state, acc =>
      let a := sc.act i
      let sr := sc.env i
      if hasNaNState sr.nextState then (acc, sr.nextState)
      else
        let acc' := acc.push state a sr (sc.critic state)
        if sr.done then (acc', sr.nextState)
        else rolloutAux sc fuel (i + 1) sr.nextState acc'

def rollout (sc : Script) (fuel : ℕ) : Traj × List Flt :=
  rolloutAux sc fuel 0 sc.init Traj.empty

/-- The state `get_action` sees at loop iteration `i`: the reset state for
`i = 0`, else the previous step's `next_state`. -/
def stateAt (sc : Script) : ℕ → List Flt
  | 0 => sc.init
  | i + 1 => (sc.env i).nextState

/-- The trajectory the loop records for the `k` iterations `i, …, i+k-1`,
assuming none of them aborts or terminates. -/
def trajSeg (sc : Script) (i k : ℕ) : Traj :=
  { states := (List.range k).map (fun j => stateAt sc (i + j))
    actions := (List.range k).map (fun j => (sc.act (i + j)).action)
    rewards := (List.range k).map (fun j => (sc.env (i + j)).reward)
    dones := (List.range k).map (fun j => (sc.env (i + j)).done)
    probs := (List.range k).map (fun j => (sc.act (i + j)).logProb)
    valuesLearned := (List.range k).map (fun j => sc.critic (stateAt sc (i + j)))
    rawActions := (List.range k).map (fun j => (sc.act (i + j)).rawAction) }

/-- What one episode of `train` feeds into the updates. -/
structure EpisodeOutcome where
  traj : Traj
  valuesArg : List ℝ
  advantages : List ℝ
  returnsArg : List ℝ
  entropyCoef : ℝ

/-- The per-episode pipeline after the rollout: append the bootstrap value
`critic(next_state)` to `values_learned`, run `compute_advantages` on the
collected rewards / values / dones, compute the entropy coefficient. -/
def episodeData (sc : Script) (fuel episode maxEpisodes : ℕ) : EpisodeOutcome :=
  let r := rollout sc fuel
  let values := r.1.valuesLearned ++ [sc.critic r.2]
  let donesR := r.1.dones.map (fun d => if d then (1 : ℝ) else 0)
  let ar := compute_advantages gammaPPO gaelamPPO r.1.rewards values donesR
  { traj := r.1
    valuesArg := values
    advantages := ar.1
    returnsArg := ar.2
    entropyCoef := update_entropy_coef minEntropyPPO maxEntropyPPO episode maxEpisodes }

/-- `np.vstack(states)`: stacking the recorded per-step states into the
update's batch; `np.vstack` raises a `ValueError` on an empty list, so the
call fails when the trajectory holds no transition at all. -/
def vstack (states : List (List Flt)) : Except String (List (List Flt)) :=
  if states.isEmpty then .error "need at least one array to concatenate"
  else .ok states

/-- One full episode: the pipeline above, then the call
`update(np.vstack(states), ...)` — the argument `np.vstack(states)` is
evaluated first and raises on an empty trajectory — then the actor update's
numeric-validity checks; any error propagates uncaught (the critic's
gradient step mutates only external network parameters and is not recorded
here). -/
def trainEpisode (sc : Script) (fuel episode maxEpisodes : ℕ) :
    Except String EpisodeOutcome :=
  let o := episodeData sc fuel episode maxEpisodes
  match vstack o.traj.states with
  | .error e => .error e
  | .ok _ =>
    match policyUpdate epsilonPPO o.entropyCoef sc.reeval o.traj.probs
        o.advantages sc.entropy with
    | .error e => .error e
    | .ok _ => .ok o

/-- The episode loop of `train`, from episode `e` with `rem` episodes left
(`train` runs it with `e = 0`, `rem = maxEpisodes`); an uncaught error from
an episode's update halts the run. -/
def trainFrom (scripts : ℕ → Script) (fuel maxEpisodes : ℕ) :
    ℕ → ℕ → Except String (List EpisodeOutcome)
  | _, 0 => .ok []
  | e, rem + 1 =>
      match trainEpisode (scripts e) fuel e maxEpisodes with
      | .error msg => .error msg
      | .ok o => (trainFrom scripts fuel maxEpisodes (e + 1) rem).map (o :: ·)

def train (scripts : ℕ → Script) (fuel maxEpisodes : ℕ) :
    Except String (List EpisodeOutcome) :=
  trainFrom scripts fuel maxEpisodes 0 maxEpisodes

/-! ### Helper lemmas -/

lemma getD_map_range {α : Type} (f : ℕ → α) (n t : ℕ) (d : α) (h : t < n) :
    (((List.range n).map f).getD t d) = f t := by
  have hl : t < ((List.range n).map f).length := by simpa using h
  rw [List.getD_eq_getElem _ _ hl]
  simp

lemma rawAdv_last (γ lam : ℝ) (rewards values dones : List ℝ) :
    rawAdv γ lam rewards values dones (rewards.length - 1)
      = gaeBody γ lam rewards values dones (rewards.length - 1) 0 := by
  unfold rawAdv
  rw [Nat.sub_self]
  rfl

lemma rawAdv_succ (γ lam : ℝ) (rewards values dones : List ℝ) (t : ℕ)
    (h : t + 1 < rewards.length) :
    rawAdv γ lam rewards values dones t
      = gaeBody γ lam rewards values dones t
          (rawAdv γ lam rewards values dones (t + 1)) := by
  unfold rawAdv
  have h2 : rewards.length - 1 - t = (rewards.length - 1 - (t + 1)) + 1 := by omega
  rw [h2]
  show gaeBody γ lam rewards values dones
      (rewards.length - 1 - ((rewards.length - 1 - (t + 1)) + 1)) _ = _
  have h3 : rewards.length - 1 - ((rewards.length - 1 - (t + 1)) + 1) = t := by omega
  rw [h3]

lemma trajSeg_zero (sc : Script) (i : ℕ) : trajSeg sc i 0 = Traj.empty := by
  simp [trajSeg, Traj.empty]

lemma app_empty (a : Traj) : a.app Traj.empty = a := by
  ext1 <;> simp [Traj.app, Traj.empty]

lemma empty_app (a : Traj) : Traj.empty.app a = a := by
  ext1 <;> simp [Traj.app, Traj.empty]

lemma range_map_shift {α : Type} (f : ℕ → α) (i k : ℕ) :
    (List.range (k + 1)).map (fun j => f (i + j))
      = f i :: (List.range k).map (fun j => f (i + 1 + j)) := by
  rw [List.range_succ_eq_map]
  simp only [List.map_cons, List.map_map, Nat.add_zero]
  refine congrArg (f i :: ·) ?_
  refine List.map_congr_left ?_
  intro j _
  simp only [Function.comp_apply]
  congr 1
  omega

lemma push_app_seg (sc : Script) (acc : Traj) (i k : ℕ) :
    (acc.push (stateAt sc i) (sc.act i) (sc.env i) (sc.critic (stateAt sc i))).app
        (trajSeg sc (i + 1) k)
      = acc.app (trajSeg sc i (k + 1)) := by
  ext1 <;>
  · simp only [Traj.push, Traj.app, trajSeg, List.range_succ_eq_map, List.map_cons,
      List.map_map, List.append_assoc, List.singleton_append, Nat.add_zero,
      Function.comp]
    congr 1
    congr 1
    refine List.map_congr_left ?_
    intro j hj
    simp only [Function.comp_apply, Nat.succ_eq_add_one]
    have h3 : i + 1 + j = i + (j + 1) := by omega
    rw [h3]

/-- If the first `k` iterations from `i` neither terminate nor abort and
iteration `i + k` returns a NaN-containing next state, the loop records
exactly the `k` clean transitions and stops with the bad state in
`next_state`. -/
lemma rolloutAux_abort (sc : Script) :
    ∀ (k fuel i : ℕ) (acc : Traj), k < fuel →
      (∀ j, j < k → (sc.env (i + j)).done = false
          ∧ hasNaNState ((sc.env (i + j)).nextState) = false) →
      hasNaNState ((sc.env (i + k)).nextState) = true →
      rolloutAux sc fuel i (stateAt sc i) acc
        = (acc.app (trajSeg sc i k), (sc.env (i + k)).nextState) := by
  intro k
  induction k with
  | zero =>
      intro fuel i acc hf _ hnan
      obtain ⟨f, rfl⟩ : ∃ f, fuel = f + 1 := ⟨fuel - 1, by omega⟩
      simp only [rolloutAux]
      rw [if_pos (by simpa using hnan)]
      rw [trajSeg_zero, app_empty]
      simpa using rfl
  | succ k ih =>
      intro fuel i acc hf hclean hnan
      obtain ⟨f, rfl⟩ : ∃ f, fuel = f + 1 := ⟨fuel - 1, by omega⟩
      have h0 := hclean 0 (by omega)
      simp only [Nat.add_zero] at h0
      simp only [rolloutAux]
      rw [if_neg (by simp [h0.2]), if_neg (by simp [h0.1])]
      have hstep : (sc.env i).nextState = stateAt sc (i + 1) := rfl
      rw [hstep]
      have ihap := ih f (i + 1)
        (acc.push (stateAt sc i) (sc.act i) (sc.env i) (sc.critic (stateAt sc i)))
        (by omega)
        (by
          intro j hj
          have := hclean (j + 1) (by omega)
          have harg : i + (j + 1) = i + 1 + j := by omega
          rwa [harg] at this)
        (by
          have harg : i + (k + 1) = i + 1 + k := by omega
          rwa [harg] at hnan)
      rw [ihap, push_app_seg]
      have harg : i + 1 + k = i + (k + 1) := by omega
      rw [harg]

/-- Each loop iteration appends exactly one element to each per-step list,
so `values_learned`, `dones` and `rewards` stay equally long. -/
lemma rolloutAux_lens (sc : Script) :
    ∀ (fuel i : ℕ) (st : List Flt) (acc : Traj),
      acc.valuesLearned.length = acc.rewards.length →
      acc.dones.length = acc.rewards.length →
      (rolloutAux sc fuel i st acc).1.valuesLearned.length
          = (rolloutAux sc fuel i st acc).1.rewards.length
        ∧ (rolloutAux sc fuel i st acc).1.dones.length
          = (rolloutAux sc fuel i st acc).1.rewards.length := by
  intro fuel
  induction fuel with
  | zero => intro i st acc h1 h2; exact ⟨h1, h2⟩
  | succ f ih =>
      intro i st acc h1 h2
      simp only [rolloutAux]
      split
      · exact ⟨h1, h2⟩
      · split
        · constructor <;> simp [Traj.push, h1, h2]
        · exact ih (i + 1) _ _ (by simp [Traj.push, h1]) (by simp [Traj.push, h2])

lemma mean_of_const (xs : List ℝ) (c : ℝ) (hne : xs ≠ [])
    (h : ∀ x ∈ xs, x = c) : mean xs = c := by
  have hs : xs.sum = xs.length • c := List.sum_eq_card_nsmul xs c h
  have hl : (xs.length : ℝ) ≠ 0 := by
    simpa using List.length_pos.mpr hne |>.ne'
  rw [mean, hs, nsmul_eq_mul, mul_div_assoc, mul_comm]
  field_simp

/-! ### Claim theorems -/

/-- C1: in the GAE reverse scan, the last step `t = T-1` uses
`nextValue = values[T]` (the bootstrap value) and `nextDone = dones[T-1]`
(the current step's own done flag), while every `t < T-1` uses
`nextValue = values[t+1]` and `nextDone = dones[t+1]`, feeding the usual
recursion tail. -/
theorem gae_boundary_selection (γ lam : ℝ) (rewards values dones : List ℝ)
    (hv : values.length = rewards.length + 1) (t : ℕ) (ht : t < rewards.length) :
    (t = rewards.length - 1 →
      rawAdv γ lam rewards values dones t
        = rewards.getD t 0 + γ * values.getD rewards.length 0 * (1 - dones.getD t 0)
            - values.getD t 0)
    ∧ (t < rewards.length - 1 →
      rawAdv γ lam rewards values dones t
        = rewards.getD t 0 + γ * values.getD (t + 1) 0 * (1 - dones.getD (t + 1) 0)
            - values.getD t 0
          + γ * lam * (1 - dones.getD (t + 1) 0)
              * rawAdv γ lam rewards values dones (t + 1)) := by
  constructor
  · intro he
    subst he
    have hv1 : values.length - 1 = rewards.length := by omega
    rw [rawAdv_last]
    unfold gaeBody tdDelta nextValueSel nextDoneSel
    rw [if_pos rfl, if_pos rfl, hv1]
    ring
  · intro hlt
    have h1 : t + 1 < rewards.length := by omega
    rw [rawAdv_succ _ _ _ _ _ _ h1]
    unfold gaeBody tdDelta nextValueSel nextDoneSel
    rw [if_neg (by omega), if_neg (by omega)]

/-- Witness for C1 at `rewards = [1, 2]`, `values = [5, 6, 7]`,
`dones = [0, 1]`, boundary step `t = 1`. -/
theorem gae_boundary_selection_witness :
    rawAdv 0.99 0.95 [1, 2] [5, 6, 7] [0, 1] 1 = 2 + 0.99 * 7 * (1 - 1) - 6 := by
  have h := (gae_boundary_selection 0.99 0.95 [1, 2] [5, 6, 7] [0, 1]
    (by simp) 1 (by simp)).1 (by simp)
  simpa using h

/-- C2: each entry of the returns output equals the raw (pre-normalization)
GAE advantage plus the value baseline, and the advantages output is the
normalized sequence (the returns are emitted un-normalized). -/
theorem returns_are_raw_advantage_plus_value (γ lam : ℝ)
    (rewards values dones : List ℝ) (t : ℕ) (ht : t < rewards.length) :
    (compute_advantages γ lam rewards values dones).2.getD t 0
        = rawAdv γ lam rewards values dones t + values.getD t 0
    ∧ (compute_advantages γ lam rewards values dones).1
        = normalizeAdv (advantagesRaw γ lam rewards values dones) := by
  refine ⟨?_, rfl⟩
  unfold compute_advantages returnsSeq
  exact getD_map_range _ _ _ _ ht

/-- Witness for C2 at `rewards = [1]`, `values = [2, 3]`, `dones = [0]`,
`t = 0`. -/
theorem returns_are_raw_advantage_plus_value_witness :
    (compute_advantages 0.99 0.95 [1] [2, 3] [0]).2.getD 0 0
      = rawAdv 0.99 0.95 [1] [2, 3] [0] 0 + 2 := by
  have h := (returns_are_raw_advantage_plus_value 0.99 0.95 [1] [2, 3] [0]
    0 (by simp)).1
  simpa using h

/-- C7 (amended): with λ = 0 the raw, pre-normalization GAE advantage at
every step equals the one-step TD residual (the returned advantages are
normalized afterwards and differ in general; see the counterexample). -/
theorem raw_advantage_eq_delta_when_lam_zero (γ : ℝ)
    (rewards values dones : List ℝ) (t : ℕ) (ht : t < rewards.length) :
    rawAdv γ 0 rewards values dones t = tdDelta γ rewards values dones t := by
  by_cases he : t = rewards.length - 1
  · subst he
    rw [rawAdv_last]
    unfold gaeBody
    ring
  · have h1 : t + 1 < rewards.length := by omega
    rw [rawAdv_succ _ _ _ _ _ _ h1]
    unfold gaeBody
    ring

/-- Witness for the amended C7 at `rewards = [1]`, `values = [2, 3]`,
`dones = [0]`, `t = 0`. -/
theorem raw_advantage_eq_delta_when_lam_zero_witness :
    rawAdv 0.99 0 [1] [2, 3] [0] 0 = tdDelta 0.99 [1] [2, 3] [0] 0 :=
  raw_advantage_eq_delta_when_lam_zero 0.99 [1] [2, 3] [0] 0 (by simp)

/-- C7 counterexample: with λ = 0, at `rewards = [1, 0]`,
`values = [0, 0, 0]`, `dones = [0, 1]` the advantage sequence actually
returned by `compute_advantages` (which is normalized) differs from the
one-step TD residual at `t = 1`: the residual is 0 while the returned entry
is negative. -/
theorem normalized_advantage_ne_delta :
    (compute_advantages 0.99 0 [1, 0] [0, 0, 0] [0, 1]).1.getD 1 0
      ≠ tdDelta 0.99 [1, 0] [0, 0, 0] [0, 1] 1 := by
  have hdelta : tdDelta 0.99 [1, 0] [0, 0, 0] [0, 1] 1 = 0 := by
    norm_num [tdDelta, nextValueSel, nextDoneSel]
  have hr1 : rawAdv 0.99 0 [1, 0] [0, 0, 0] [0, 1] 1 = 0 := by
    have h := rawAdv_last 0.99 0 ([1, 0] : List ℝ) [0, 0, 0] [0, 1]
    norm_num [gaeBody, tdDelta, nextValueSel, nextDoneSel] at h
    convert h using 2
    norm_num
  have hr0 : rawAdv 0.99 0 [1, 0] [0, 0, 0] [0, 1] 0 = 1 := by
    have h := rawAdv_succ 0.99 0 ([1, 0] : List ℝ) [0, 0, 0] [0, 1] 0 (by norm_num)
    rw [hr1] at h
    norm_num [gaeBody, tdDelta, nextValueSel, nextDoneSel] at h
    convert h using 2
    norm_num
  have hlist : advantagesRaw 0.99 0 [1, 0] [0, 0, 0] [0, 1] = [1, 0] := by
    rw [advantagesRaw, show List.range ([(1 : ℝ), 0]).length = [0, 1] from rfl]
    rw [List.map_cons, List.map_cons, List.map_nil, hr0, hr1]
  have hcomp : (compute_advantages 0.99 0 [1, 0] [0, 0, 0] [0, 1]).1
      = normalizeAdv [1, 0] := by
    show normalizeAdv (advantagesRaw 0.99 0 [1, 0] [0, 0, 0] [0, 1]) = _
    rw [hlist]
  have hm : mean [(1 : ℝ), 0] = 1 / 2 := by
    norm_num [mean]
  have hget : (normalizeAdv [(1 : ℝ), 0]).getD 1 0
      = (0 - mean [(1 : ℝ), 0]) / (stdPop [(1 : ℝ), 0] + 1e-8) := by
    simp [normalizeAdv]
  have hspos : (0 : ℝ) < stdPop [(1 : ℝ), 0] + 1e-8 := by
    unfold stdPop
    positivity
  have hneg : (normalizeAdv [(1 : ℝ), 0]).getD 1 0 < 0 := by
    rw [hget, hm]
    exact div_neg_of_neg_of_pos (by norm_num) hspos
  rw [hdelta, hcomp]
  exact ne_of_lt hneg

/-- C4 (amended): the entropy coefficient is
`clamp(maxEntropy - (maxEntropy - minEntropy) * episode / maxEpisodes,
minEntropy, maxEntropy)` — the linear term is divided by `maxEpisodes`, not
by `maxEntropy` — and it is a pure function of the episode index staying in
the configured bounds. -/
theorem entropy_coef_linear_in_episode_ratio (minE maxE : ℝ)
    (episode maxEpisodes : ℕ) :
    update_entropy_coef minE maxE episode maxEpisodes
      = min (max (maxE - (maxE - minE) * ((episode : ℝ) / (maxEpisodes : ℝ))) minE) maxE
    ∧ (minE ≤ maxE →
        minE ≤ update_entropy_coef minE maxE episode maxEpisodes
        ∧ update_entropy_coef minE maxE episode maxEpisodes ≤ maxE) := by
  refine ⟨rfl, fun hle => ⟨?_, ?_⟩⟩
  · exact le_min (le_max_right _ _) hle
  · exact min_le_right _ _

/-- Witness for the amended C4 at the agent's configured bounds,
`episode = 1`, `maxEpisodes = 100`. -/
theorem entropy_coef_linear_in_episode_ratio_witness :
    minEntropyPPO ≤ update_entropy_coef minEntropyPPO maxEntropyPPO 1 100
    ∧ update_entropy_coef minEntropyPPO maxEntropyPPO 1 100 ≤ maxEntropyPPO :=
  (entropy_coef_linear_in_episode_ratio minEntropyPPO maxEntropyPPO 1 100).2
    (by norm_num [minEntropyPPO, maxEntropyPPO])

/-- C4 counterexample: at `episode = 1`, `maxEpisodes = 100` with the
agent's bounds, the source's schedule (division by `maxEpisodes`, value
0.009901) differs from the claim's formula (division by `maxEntropy`,
value 0.0001 after clamping). -/
theorem entropy_coef_claim_formula_false :
    update_entropy_coef minEntropyPPO maxEntropyPPO 1 100
      ≠ entropyCoefClaim minEntropyPPO maxEntropyPPO 1 100 := by
  unfold update_entropy_coef entropyCoefClaim minEntropyPPO maxEntropyPPO
  norm_num [min_def, max_def]

/-- C3: at `returns = [1, 3]` and per-state critic values `[0, 2]`
(`T = 2`), the loss the source computes — the mean over the `(T, T)`
broadcast of `returns` (shape `(T,)`) against the critic output (shape
`(T, 1)`) — is 3, while the elementwise mean squared error the claim
describes is 1. -/
theorem critic_loss_broadcast_mismatch :
    criticLossTF [1, 3] [0, 2] = 3 ∧ criticLossSpec [1, 3] [0, 2] = 1 := by
  constructor <;> norm_num [criticLossTF, criticLossSpec, mean]

lemma checkNumerics_fails (msg : String) (xs : List Flt)
    (h : ¬ (xs.all Flt.isFinite = true)) :
    checkNumerics msg xs = .error msg := by
  unfold checkNumerics
  rw [if_neg h]

lemma checkNumerics_fails_of_mem (msg : String) (xs : List Flt) (x : Flt)
    (hx : x ∈ xs) (hfin : x.isFinite = false) :
    checkNumerics msg xs = .error msg := by
  refine checkNumerics_fails msg xs ?_
  intro hall
  have hfx := List.all_eq_true.mp hall x hx
  rw [hfin] at hfx
  exact absurd hfx (by simp)

lemma checkNumerics_passes (msg : String) (xs : List Flt)
    (h : xs.all Flt.isFinite = true) :
    checkNumerics msg xs = .ok xs := by
  unfold checkNumerics
  rw [if_pos h]

lemma policyUpdate_ok (ε ec : ℝ) (logProbs logProbsOld : List Flt)
    (adv ent : List ℝ)
    (h1 : logProbs.all Flt.isFinite = true)
    (h2 : (ratiosOf logProbs logProbsOld).all Flt.isFinite = true) :
    policyUpdate ε ec logProbs logProbsOld adv ent
      = .ok (surrogateLoss ε ((ratiosOf logProbs logProbsOld).map Flt.toReal) adv
          - ec * mean ent) := by
  unfold policyUpdate
  rw [checkNumerics_passes _ _ h1]
  show (match checkNumerics "ratios contain NaN" (ratiosOf logProbs logProbsOld) with
        | Except.error e => Except.error e
        | Except.ok r =>
            Except.ok (surrogateLoss ε (r.map Flt.toReal) adv - ec * mean ent))
      = Except.ok (surrogateLoss ε ((ratiosOf logProbs logProbsOld).map Flt.toReal) adv
          - ec * mean ent)
  rw [checkNumerics_passes _ _ h2]

/-- C5: if the recomputed log-probabilities or the importance ratios contain
a non-finite value, the actor update fails with an error instead of
producing a loss. -/
theorem policy_update_errors_on_nonfinite (ε ec : ℝ)
    (logProbs logProbsOld : List Flt) (adv ent : List ℝ)
    (h : (∃ x ∈ logProbs, x.isFinite = false)
        ∨ ∃ x ∈ ratiosOf logProbs logProbsOld, x.isFinite = false) :
    ∃ msg, policyUpdate ε ec logProbs logProbsOld adv ent = .error msg := by
  rcases h with ⟨x, hx, hfin⟩ | ⟨x, hx, hfin⟩
  · refine ⟨"log_probs contain NaN", ?_⟩
    unfold policyUpdate
    rw [checkNumerics_fails_of_mem _ _ x hx hfin]
  · by_cases hall : logProbs.all Flt.isFinite = true
    · refine ⟨"ratios contain NaN", ?_⟩
      unfold policyUpdate
      rw [checkNumerics_passes _ _ hall]
      show (match checkNumerics "ratios contain NaN" (ratiosOf logProbs logProbsOld) with
            | Except.error e => Except.error e
            | Except.ok r =>
                Except.ok (surrogateLoss ε (r.map Flt.toReal) adv - ec * mean ent))
          = Except.error "ratios contain NaN"
      rw [checkNumerics_fails_of_mem _ _ x hx hfin]
    · refine ⟨"log_probs contain NaN", ?_⟩
      unfold policyUpdate
      rw [checkNumerics_fails _ _ hall]

/-- Witness for C5: a NaN among the recomputed log-probabilities. -/
theorem policy_update_errors_on_nonfinite_witness :
    ∃ msg, policyUpdate 0.2 0.01 [Flt.nan] [Flt.fin 0] [0] [0] = .error msg :=
  policy_update_errors_on_nonfinite 0.2 0.01 [Flt.nan] [Flt.fin 0] [0] [0]
    (Or.inl ⟨Flt.nan, by simp, rfl⟩)

lemma zipWith_min_zero (ε : ℝ) (ratios advs : List ℝ)
    (h : ∀ a ∈ advs, a = 0) :
    ∀ x ∈ List.zipWith
        (fun r a => min (r * a) (clipByValue r (1 - ε) (1 + ε) * a))
        ratios advs, x = 0 := by
  induction ratios generalizing advs with
  | nil => intro x hx; simp at hx
  | cons r rs ih =>
      cases advs with
      | nil => intro x hx; simp at hx
      | cons a as =>
          intro x hx
          simp only [List.zipWith_cons_cons, List.mem_cons] at hx
          rcases hx with hx | hx
          · have ha : a = 0 := h a (by simp)
            rw [hx, ha]
            simp
          · exact ih as (fun b hb => h b (by simp [hb])) x hx

/-- C9: when the raw (pre-normalization) GAE advantages are all equal — in
particular for any length-1 trajectory — the normalized advantage sequence
is identically zero, and the clipped-surrogate objective built from it is
zero whatever the importance ratios are. -/
theorem equal_raw_advantages_normalize_to_zero (γ lam : ℝ)
    (rewards values dones : List ℝ)
    (h : ∀ x ∈ advantagesRaw γ lam rewards values dones,
        ∀ y ∈ advantagesRaw γ lam rewards values dones, x = y) :
    (∀ z ∈ (compute_advantages γ lam rewards values dones).1, z = 0)
    ∧ ∀ (ε : ℝ) (ratios : List ℝ),
        surrogateLoss ε ratios (compute_advantages γ lam rewards values dones).1
          = 0 := by
  have hz : ∀ z ∈ (compute_advantages γ lam rewards values dones).1, z = 0 := by
    intro z hzmem
    have hz' : z ∈ normalizeAdv (advantagesRaw γ lam rewards values dones) := hzmem
    rw [normalizeAdv] at hz'
    obtain ⟨x, hx, rfl⟩ := List.mem_map.mp hz'
    have hxc : mean (advantagesRaw γ lam rewards values dones) = x :=
      mean_of_const _ x (List.ne_nil_of_mem hx) (fun y hy => h y hy x hx)
    rw [hxc, sub_self, zero_div]
  refine ⟨hz, fun ε ratios => ?_⟩
  unfold surrogateLoss
  have hall := zipWith_min_zero ε ratios _ hz
  unfold mean
  rw [List.sum_eq_zero hall]
  simp

/-- Witness for C9 on the length-1 trajectory `rewards = [2]`,
`values = [1, 5]`, `dones = [1]`. -/
theorem equal_raw_advantages_normalize_to_zero_witness :
    (compute_advantages gammaPPO gaelamPPO [2] [1, 5] [1]).1.getD 0 0 = 0 := by
  have h := equal_raw_advantages_normalize_to_zero gammaPPO gaelamPPO
    [2] [1, 5] [1]
    (by
      intro x hx y hy
      simp [advantagesRaw] at hx hy
      rw [← hx, ← hy])
  have hlen : 0 < ((compute_advantages gammaPPO gaelamPPO [2] [1, 5] [1]).1).length := by
    simp [compute_advantages, normalizeAdv, advantagesRaw]
  rw [List.getD_eq_getElem _ _ hlen]
  exact h.1 _ (List.getElem_mem _)

lemma rollout_lens (sc : Script) (fuel : ℕ) :
    (rollout sc fuel).1.valuesLearned.length = (rollout sc fuel).1.rewards.length
    ∧ (rollout sc fuel).1.dones.length = (rollout sc fuel).1.rewards.length :=
  rolloutAux_lens sc fuel 0 sc.init Traj.empty (by simp [Traj.empty]) (by simp [Traj.empty])

/-- C8: what the training loop passes to `compute_advantages` always has a
value sequence exactly one longer than the collected rewards (and equally
many done flags), and the advantage and return sequences coming out of
`compute_advantages` always have the length of the rewards sequence. -/
theorem length_invariants :
    (∀ (sc : Script) (fuel ep M : ℕ),
        (episodeData sc fuel ep M).valuesArg.length
            = (episodeData sc fuel ep M).traj.rewards.length + 1
        ∧ (episodeData sc fuel ep M).traj.dones.length
            = (episodeData sc fuel ep M).traj.rewards.length)
    ∧ ∀ (γ lam : ℝ) (rewards values dones : List ℝ),
        (compute_advantages γ lam rewards values dones).1.length = rewards.length
        ∧ (compute_advantages γ lam rewards values dones).2.length = rewards.length := by
  constructor
  · intro sc fuel ep M
    constructor
    · show ((rollout sc fuel).1.valuesLearned ++ [sc.critic (rollout sc fuel).2]).length
          = (rollout sc fuel).1.rewards.length + 1
      rw [List.length_append, (rollout_lens sc fuel).1]
      rfl
    · exact (rollout_lens sc fuel).2
  · intro γ lam rewards values dones
    constructor <;> simp [compute_advantages, normalizeAdv, advantagesRaw, returnsSeq]

lemma rollout_abort (sc : Script) (k fuel : ℕ) (hk : k < fuel)
    (hclean : ∀ j, j < k → (sc.env j).done = false
        ∧ hasNaNState ((sc.env j).nextState) = false)
    (hnan : hasNaNState ((sc.env k).nextState) = true) :
    rollout sc fuel = (trajSeg sc 0 k, (sc.env k).nextState) := by
  have h := rolloutAux_abort sc k fuel 0 Traj.empty hk
    (by intro j hj; simpa using hclean j hj)
    (by simpa using hnan)
  rw [empty_app] at h
  simpa [rollout, stateAt] using h

/-- A rollout script whose first step returns a next state containing an
infinite (hence non-finite, but not NaN) value and `done = false`, and
whose second step terminates normally. -/
def scInf : Script :=
  { init := [Flt.fin 0]
    act := fun _ => { action := [0], logProb := Flt.fin 0, rawAction := [0] }
    env := fun i =>
      if i = 0 then { nextState := [Flt.inf true], reward := 1, done := false }
      else { nextState := [Flt.fin 0], reward := 1, done := true }
    critic := fun _ => 0
    reeval := []
    entropy := [] }

/-- C6 counterexample: the rollout's abort check is `np.isnan`, not a
finiteness check.  In `scInf` the environment's first step returns a next
state containing a non-finite (infinite) value, yet the rollout does not
abort: it keeps the transition and collects a further step, ending with two
recorded rewards instead of zero. -/
theorem rollout_ignores_infinite_state :
    ((scInf.env 0).nextState.any (fun x => !x.isFinite)) = true
    ∧ (rollout scInf 5).1.rewards = [1, 1] := by
  constructor
  · rfl
  · rfl

/-- C6 (amended, with "non-finite" read as the NaN the source tests for):
if the first `k` steps are clean and step `k` returns a NaN-containing next
state, the rollout stops with exactly the `k` already-recorded transitions
(none discarded, none added), and the truncated trajectory, bootstrapped
with the critic's value of the bad state, is what the episode pipeline
hands to advantage estimation in every case.  What happens next splits: at
`k = 0` the trajectory is empty, `np.vstack(states)` raises, and training
halts; at `k ≥ 1`, absent the numeric-validity hard-fail in the update
(finite recomputed log-probabilities and ratios), the episode's update runs
on the truncated data and the training loop goes on to the next episode. -/
theorem rollout_nan_abort_truncates (scripts : ℕ → Script) (fuel M ep rem k : ℕ)
    (hk : k < fuel)
    (hclean : ∀ j, j < k → ((scripts ep).env j).done = false
        ∧ hasNaNState (((scripts ep).env j).nextState) = false)
    (hnan : hasNaNState (((scripts ep).env k).nextState) = true) :
    (rollout (scripts ep) fuel).1 = trajSeg (scripts ep) 0 k
    ∧ (episodeData (scripts ep) fuel ep M).traj = trajSeg (scripts ep) 0 k
    ∧ (episodeData (scripts ep) fuel ep M).valuesArg
        = (trajSeg (scripts ep) 0 k).valuesLearned
            ++ [(scripts ep).critic (((scripts ep).env k).nextState)]
    ∧ (episodeData (scripts ep) fuel ep M).advantages
        = (compute_advantages gammaPPO gaelamPPO
            (trajSeg (scripts ep) 0 k).rewards
            ((episodeData (scripts ep) fuel ep M).valuesArg)
            ((trajSeg (scripts ep) 0 k).dones.map
              (fun d => if d then (1 : ℝ) else 0))).1
    ∧ (k = 0 →
        trainEpisode (scripts ep) fuel ep M
            = .error "need at least one array to concatenate"
        ∧ trainFrom scripts fuel M ep (rem + 1)
            = .error "need at least one array to concatenate")
    ∧ (0 < k →
        (scripts ep).reeval.all Flt.isFinite = true →
        (ratiosOf (scripts ep).reeval (trajSeg (scripts ep) 0 k).probs).all
            Flt.isFinite = true →
        trainEpisode (scripts ep) fuel ep M
            = .ok (episodeData (scripts ep) fuel ep M)
        ∧ trainFrom scripts fuel M ep (rem + 1)
            = (trainFrom scripts fuel M (ep + 1) rem).map
                ((episodeData (scripts ep) fuel ep M) :: ·)) := by
  have hro := rollout_abort (scripts ep) k fuel hk hclean hnan
  have hprobs : (episodeData (scripts ep) fuel ep M).traj.probs
      = (trajSeg (scripts ep) 0 k).probs := by
    simp only [episodeData]
    rw [hro]
  refine ⟨by rw [hro], ?_, ?_, ?_, ?_, ?_⟩
  · simp only [episodeData]
    rw [hro]
  · simp only [episodeData]
    rw [hro]
  · simp only [episodeData]
    rw [hro]
  · intro hk0
    subst hk0
    have hst : (episodeData (scripts ep) fuel ep M).traj.states = [] := by
      simp only [episodeData]
      rw [hro, trajSeg_zero]
      rfl
    have hte : trainEpisode (scripts ep) fuel ep M
        = .error "need at least one array to concatenate" := by
      simp only [trainEpisode]
      rw [show vstack (episodeData (scripts ep) fuel ep M).traj.states
          = Except.error "need at least one array to concatenate" from by
        rw [hst]; rfl]
    refine ⟨hte, ?_⟩
    simp only [trainFrom]
    rw [hte]
  · intro hkpos hfin1 hfin2
    have hstates : (episodeData (scripts ep) fuel ep M).traj.states
        = (List.range k).map (fun j => stateAt (scripts ep) (0 + j)) := by
      simp only [episodeData]
      rw [hro]
      rfl
    have hvst : vstack (episodeData (scripts ep) fuel ep M).traj.states
        = .ok ((List.range k).map (fun j => stateAt (scripts ep) (0 + j))) := by
      rw [hstates]
      unfold vstack
      rw [if_neg ?hne]
      case hne =>
        obtain ⟨m, rfl⟩ : ∃ m, k = m + 1 := ⟨k - 1, by omega⟩
        rw [List.range_succ_eq_map]
        simp
    have hpu := policyUpdate_ok epsilonPPO
      (episodeData (scripts ep) fuel ep M).entropyCoef
      (scripts ep).reeval ((episodeData (scripts ep) fuel ep M).traj.probs)
      (episodeData (scripts ep) fuel ep M).advantages (scripts ep).entropy
      hfin1 (by rw [hprobs]; exact hfin2)
    have hte : trainEpisode (scripts ep) fuel ep M
        = .ok (episodeData (scripts ep) fuel ep M) := by
      simp only [trainEpisode]
      rw [hvst]
      show (match policyUpdate epsilonPPO
            (episodeData (scripts ep) fuel ep M).entropyCoef
            (scripts ep).reeval (episodeData (scripts ep) fuel ep M).traj.probs
            (episodeData (scripts ep) fuel ep M).advantages (scripts ep).entropy with
          | Except.error e => Except.error e
          | Except.ok _ => Except.ok (episodeData (scripts ep) fuel ep M))
        = Except.ok (episodeData (scripts ep) fuel ep M)
      rw [hpu]
    refine ⟨hte, ?_⟩
    simp only [trainFrom]
    rw [hte]

/-- A rollout script whose very first environment step returns a NaN state,
so the episode records no transition at all. -/
def scNaN : Script :=
  { init := [Flt.fin 0]
    act := fun _ => { action := [0], logProb := Flt.fin 0, rawAction := [0] }
    env := fun _ => { nextState := [Flt.nan], reward := 1, done := false }
    critic := fun _ => 0
    reeval := []
    entropy := [] }

/-- A rollout script with one clean step and a NaN abort at step 1. -/
def scNaN2 : Script :=
  { init := [Flt.fin 0]
    act := fun _ => { action := [0], logProb := Flt.fin 0, rawAction := [0] }
    env := fun i =>
      if i = 0 then { nextState := [Flt.fin 2], reward := 5, done := false }
      else { nextState := [Flt.nan], reward := 7, done := false }
    critic := fun _ => 3
    reeval := []
    entropy := [] }

/-- Witness for the amended C6: on `scNaN2` (abort at step 1, finite update
inputs) the truncated trajectory is kept and training steps on to the next
episode, while on `scNaN` (abort at step 0, empty trajectory) the batch
assembly fails and training halts. -/
theorem rollout_nan_abort_truncates_witness :
    ((rollout scNaN2 2).1 = trajSeg scNaN2 0 1
      ∧ trainFrom (fun _ => scNaN2) 2 1 0 1
          = (trainFrom (fun _ => scNaN2) 2 1 1 0).map ((episodeData scNaN2 2 0 1) :: ·))
    ∧ trainFrom (fun _ => scNaN) 1 1 0 1
        = .error "need at least one array to concatenate" := by
  have h2 := rollout_nan_abort_truncates (fun _ => scNaN2) 2 1 0 0 1
    (by omega)
    (by
      intro j hj
      have hj0 : j = 0 := by omega
      subst hj0
      exact ⟨rfl, rfl⟩)
    (by rfl)
  have h0 := rollout_nan_abort_truncates (fun _ => scNaN) 1 1 0 0 0
    (by omega)
    (by intro j hj; exact absurd hj (Nat.not_lt_zero j))
    (by rfl)
  exact ⟨⟨h2.1, (h2.2.2.2.2.2 (by omega) (by rfl) (by rfl)).2⟩,
    (h0.2.2.2.2.1 rfl).2⟩

/-- C10: when the rollout aborts at step `k` (NaN next state there, clean
steps before), the aborting step's transition is dropped entirely — none of
its state, action, reward, done flag, log-probability or value estimate is
recorded — and the bootstrap value appended to the value sequence is the
critic evaluated on that bad next state. -/
theorem abort_drops_transition_and_bootstraps_on_bad_state (sc : Script)
    (fuel k ep M : ℕ) (hk : k < fuel)
    (hclean : ∀ j, j < k → (sc.env j).done = false
        ∧ hasNaNState ((sc.env j).nextState) = false)
    (hnan : hasNaNState ((sc.env k).nextState) = true) :
    (rollout sc fuel).1.states = (List.range k).map (stateAt sc)
    ∧ (rollout sc fuel).1.actions = (List.range k).map (fun j => (sc.act j).action)
    ∧ (rollout sc fuel).1.rewards = (List.range k).map (fun j => (sc.env j).reward)
    ∧ (rollout sc fuel).1.dones = (List.range k).map (fun j => (sc.env j).done)
    ∧ (rollout sc fuel).1.probs = (List.range k).map (fun j => (sc.act j).logProb)
    ∧ (rollout sc fuel).1.valuesLearned
        = (List.range k).map (fun j => sc.critic (stateAt sc j))
    ∧ (rollout sc fuel).1.rawActions
        = (List.range k).map (fun j => (sc.act j).rawAction)
    ∧ (rollout sc fuel).2 = (sc.env k).nextState
    ∧ (episodeData sc fuel ep M).valuesArg
        = (List.range k).map (fun j => sc.critic (stateAt sc j))
            ++ [sc.critic ((sc.env k).nextState)] := by
  have hro := rollout_abort sc k fuel hk hclean hnan
  refine ⟨?_, ?_, ?_, ?_, ?_, ?_, ?_, ?_, ?_⟩
  · rw [hro]; simp [trajSeg]
  · rw [hro]; simp [trajSeg]
  · rw [hro]; simp [trajSeg]
  · rw [hro]; simp [trajSeg]
  · rw [hro]; simp [trajSeg]
  · rw [hro]; simp [trajSeg]
  · rw [hro]; simp [trajSeg]
  · rw [hro]
  · simp only [episodeData]; rw [hro]; simp [trajSeg]

/-- Witness for C10 on `scNaN2` (abort at step 1): only step 0's reward is
kept, and the bootstrap value is the critic of the NaN state. -/
theorem abort_drops_transition_witness :
    (rollout scNaN2 2).1.rewards = (List.range 1).map (fun j => (scNaN2.env j).reward)
    ∧ (episodeData scNaN2 2 0 1).valuesArg
        = (List.range 1).map (fun j => scNaN2.critic (stateAt scNaN2 j))
            ++ [scNaN2.critic ((scNaN2.env 1).nextState)] := by
  have h := abort_drops_transition_and_bootstraps_on_bad_state scNaN2 2 1 0 1
    (by omega)
    (by
      intro j hj
      have hj0 : j = 0 := by omega
      subst hj0
      exact ⟨rfl, rfl⟩)
    (by rfl)
  exact ⟨h.2.2.1, h.2.2.2.2.2.2.2.2⟩

end PPO
